import Mathlib

/-!
# Verification of the rpmlint binary-metadata analysis subsystem

This development embeds, in Lean 4, the core of rpmlint's binary metadata
extraction and rule-evaluation subsystem (the readelf-output parser, its
structural model, the rule engine consuming it) together with the
file-list driver of `rpmlint/lint.py`, and proves the specified
properties about them.

The repository slice at hand contains `rpmlint/lint.py` and the test
suite `test/test_readelf_parser.py`; the parser (`readelfparser.py`) and
the rule engine (`BinariesCheck.py`) themselves are not part of the
slice, so those components are modelled from the design specification
(each such definition carries a doc comment starting with
`Modelled from the spec:`).  `lint.py` is embedded directly from source.
-/

namespace Rpmlint

/-! ## Structural model

Modelled from the spec (§3 DATA MODEL): the record types produced by the
metadata parser.  `Section` is named `ElfSection` because `section` is a
Lean keyword; an `ElfFile` is the ordered list of sections of one ELF
image, matching the test-suite usage `elf_file[0].name` / `len(elf_file)`.
-/

/-- A section of an ELF image: `{name, size, flags}`; `flags` is the
set-of-characters flag string as emitted by the introspection utility. -/
structure ElfSection where
  name : String
  size : Nat
  flags : String
  deriving Repr, DecidableEq

/-- One ELF image, as the ordered sequence of its sections. -/
abbrev ElfFile := List ElfSection

/-- Symbol type vocabulary, normalised to one internal enum set. -/
inductive SymbolType
  | FUNC
  | FILE
  | OBJECT
  | OTHER
  deriving Repr, DecidableEq

/-- A symbol-table entry `{name, type, bind, visibility}`. -/
structure Symbol where
  name : String
  type : SymbolType
  bind : String
  visibility : String
  deriving Repr, DecidableEq

/-- A program header `{name (segment type), flags (R/W/E characters)}`. -/
structure ProgramHeader where
  name : String
  flags : String
  deriving Repr, DecidableEq

/-- A dynamic-section entry `{key (tag), value}`. -/
structure DynamicSectionEntry where
  key : String
  value : String
  deriving Repr, DecidableEq

/-! ## Character-list utilities

Executable string helpers over `List Char`, used by the SONAME policy
derivation and the failure-reason substring checks. -/

/-- `underscore cs` replaces every `.` by `_` (the spec's `.`→`_` form). -/
def underscore (cs : List Char) : List Char :=
  cs.map (fun c => if c == '.' then '_' else c)

/-- `versionLike cs` holds when `cs` looks like a `<version>`:
non-empty, starts with a digit, and consists of digits and dots. -/
def versionLike : List Char → Bool
  | [] => false
  | c :: cs => c.isDigit && cs.all (fun d => d.isDigit || d == '.')

/-- Characters after the last `-`, or `none` when there is no `-`. -/
def afterLastDash : List Char → Option (List Char)
  | [] => none
  | '-' :: rest =>
    match afterLastDash rest with
    | some v => some v
    | none => some rest
  | _ :: rest => afterLastDash rest

/-- Split at the first occurrence of `.so`: returns the part before it
and, when `.so` occurs, the remainder after it. -/
def splitAtSo : List Char → List Char × Option (List Char)
  | '.' :: 's' :: 'o' :: rest => ([], some rest)
  | [] => ([], none)
  | c :: rest =>
    let p := splitAtSo rest
    (c :: p.1, p.2)

/-- `isSublistOf needle hay`: `needle` occurs contiguously inside `hay`. -/
def isSublistOf (needle hay : List Char) : Bool :=
  needle.isPrefixOf hay ||
    match hay with
    | [] => false
    | _ :: rest => isSublistOf needle rest

/-! ## Shared-library naming policy (rule `shlib-policy-name-error`)

Modelled from the spec (§4.2 rule table, row “Shared-library naming
policy”): derive the expected package-name version suffix from the
SONAME by splitting the SONAME at `.so`; the pre-`.so` remainder, if it
carries a trailing `-<version>`, contributes that version with `.`
replaced by `_`; the post-`.so` remainder (if non-empty, i.e. `.post`)
contributes its own `.`→`_` form; the two are joined with `-` when both
are present.  The corresponding `BinariesCheck` code is not in the
repository slice. -/

/-- Expected package suffix derived from a SONAME, on character lists. -/
def expectedSuffixCore (s : List Char) : Option (List Char) :=
  let p := splitAtSo s
  let preV : Option (List Char) :=
    match afterLastDash p.1 with
    | some v => if versionLike v then some (underscore v) else none
    | none => none
  let postV : Option (List Char) :=
    match p.2 with
    | none => none
    | some [] => none
    | some ('.' :: cs) => if cs.isEmpty then none else some (underscore cs)
    | some cs => some (underscore cs)
  match preV, postV with
  | some a, some b => some (a ++ '-' :: b)
  | some a, none => some a
  | none, some b => some b
  | none, none => none

/-- Expected package suffix derived from a SONAME. -/
def expectedSuffix (soname : String) : Option String :=
  (expectedSuffixCore soname.data).map List.asString

/-- The exact diagnostic text of the naming-policy rule. -/
def shlibPolicyNameErrorMsg (soname suffix : String) : String :=
  "shlib-policy-name-error SONAME: " ++ soname ++
    ", expected package suffix: " ++ suffix

/-- Modelled from the spec: the naming-policy rule compares the derived
suffix against the package name's declared version suffix and emits the
`shlib-policy-name-error` message on mismatch. -/
def shlibPolicyCheck (pkgSuffix soname : String) : List String :=
  match expectedSuffix soname with
  | none => []
  | some d => if d == pkgSuffix then [] else [shlibPolicyNameErrorMsg soname d]

/-! ## Metadata parser

Modelled from the spec (§4.1, §9 design note): the parser consumes the
textual dump of the external introspection utility as a sequence of
recognised lines, running a line-oriented state machine with modes
{OutsideMember, InSectionHeaders, InProgramHeaders, InDynamicSection,
InSymbolTable}; banner lines switch the mode, member-boundary lines
(`File: archive(member)`) close the current member, record lines are
interpreted in the current mode.  The full-text column grammar of the
utility is out of scope (§1 non-goals), so a dump line arrives already
split into its recognised kind and fields. -/

/-- The state-machine modes of §9. -/
inductive Mode
  | outside
  | inSections
  | inHeaders
  | inDynamic
  | inSymbols
  deriving Repr, DecidableEq

/-- One recognised line of the introspection utility's dump. -/
inductive Line
  /-- A banner line switching the parser into mode `m`. -/
  | banner (m : Mode)
  /-- A `File: archive(member)` member-boundary line. -/
  | fileStart
  /-- The utility's “not an ELF file” complaint for the current member. -/
  | notElf
  /-- The `Type:` line of the ELF header (`DYN` marks a shared object). -/
  | elfType (t : String)
  /-- A section-header record. -/
  | sec (s : ElfSection)
  /-- A program-header record. -/
  | phdr (h : ProgramHeader)
  /-- A dynamic-section record. -/
  | dyn (e : DynamicSectionEntry)
  /-- A symbol-table record. -/
  | sym (s : Symbol)
  /-- Any unrecognised line. -/
  | junk
  deriving Repr, DecidableEq

/-- Parser state: current mode, the sections of the member being read,
whether that member was reported non-ELF, and the accumulated
collections (per-member section lists; flat program-header, dynamic and
symbol collections, as in the test suite's accessors). -/
structure ParserState where
  mode : Mode
  currentSections : List ElfSection
  currentNonElf : Bool
  elfFiles : List ElfFile
  headers : List ProgramHeader
  dynamic : List DynamicSectionEntry
  symbols : List Symbol
  nonElfMembers : Nat
  sawDyn : Bool
  deriving Repr, DecidableEq

/-- The empty initial parser state. -/
def initState : ParserState :=
  { mode := .outside
    currentSections := []
    currentNonElf := false
    elfFiles := []
    headers := []
    dynamic := []
    symbols := []
    nonElfMembers := 0
    sawDyn := false }

/-- Close the member being read: push its section list (when it
contributed sections and was not reported non-ELF) and reset the
per-member fields. -/
def closeMember (st : ParserState) : ParserState :=
  { st with
    elfFiles :=
      if st.currentSections ≠ [] && !st.currentNonElf then
        st.elfFiles ++ [st.currentSections]
      else st.elfFiles
    currentSections := []
    currentNonElf := false }

/-- One step of the line-oriented state machine. -/
def step (st : ParserState) : Line → ParserState
  | .banner m => { st with mode := m }
  | .fileStart => { closeMember st with mode := .outside }
  | .notElf =>
    { st with currentNonElf := true, nonElfMembers := st.nonElfMembers + 1 }
  | .elfType t => { st with sawDyn := st.sawDyn || t == "DYN" }
  | .sec s =>
    if st.mode = .inSections then
      { st with currentSections := st.currentSections ++ [s] }
    else st
  | .phdr h =>
    if st.mode = .inHeaders then { st with headers := st.headers ++ [h] }
    else st
  | .dyn e =>
    if st.mode = .inDynamic then { st with dynamic := st.dynamic ++ [e] }
    else st
  | .sym s =>
    if st.mode = .inSymbols then { st with symbols := st.symbols ++ [s] }
    else st
  | .junk => st

/-- Run the state machine over a whole dump and close the last member. -/
def runLines (ls : List Line) : ParserState :=
  closeMember (ls.foldl step initState)

/-- The root aggregate for one analysed file (§3). -/
structure ParseResult where
  is_archive : Bool
  is_shared_library : Bool
  parse_failure : Option String
  elf_files : List ElfFile
  headers : List ProgramHeader
  dynamic : List DynamicSectionEntry
  symbols : List Symbol
  nonElfMembers : Nat
  deriving Repr, DecidableEq

/-- The outcome of invoking the external introspection utility: either
its textual dump or a failure whose message is preserved verbatim. -/
inductive ToolOutput
  | failure (msg : String)
  | success (dump : List Line)
  deriving Repr, DecidableEq

/-- The `ParseResult` for a utility-level failure: `parse_failure` holds
the tool's message verbatim and every structural collection is empty. -/
def failureResult (msg : String) : ParseResult :=
  { is_archive := false
    is_shared_library := false
    parse_failure := some msg
    elf_files := []
    headers := []
    dynamic := []
    symbols := []
    nonElfMembers := 0 }

/-- Build the `ParseResult` of a successful parse from the final state.
A file is a shared library when it is not an archive and its ELF header
declared type `DYN`. -/
def successResult (archive : Bool) (st : ParserState) : ParseResult :=
  { is_archive := archive
    is_shared_library := !archive && st.sawDyn
    parse_failure := none
    elf_files := st.elfFiles
    headers := st.headers
    dynamic := st.dynamic
    symbols := st.symbols
    nonElfMembers := st.nonElfMembers }

/-- Modelled from the spec (§4.1): `parse` never raises; an ordinary
failure of the utility becomes a `ParseResult` with `parse_failure` set
to the tool's message, a successful dump is parsed by the state
machine.  `archive` is the classifier's kind for the file. -/
def parse (archive : Bool) : ToolOutput → ParseResult
  | .failure msg => failureResult msg
  | .success ls => successResult archive (runLines ls)

/-! ## Dynamic-section accessors

Modelled from the spec (§3 `DynamicSectionEntry`, §9 design note):
`dynamic_section_info` exposes a key→ordered-list-of-values lookup plus
convenience accessors `soname`, `needed`, `runpath`.  Values carry the
utility's raw text (e.g. `Shared library: [libc.so.6]`); the accessors
extract the bracketed payload. -/

/-- Characters following the first `[`, when present. -/
def afterBracket : List Char → Option (List Char)
  | [] => none
  | '[' :: rest => some rest
  | _ :: rest => afterBracket rest

/-- Characters up to (excluding) the first `]`. -/
def upToClose : List Char → List Char
  | [] => []
  | ']' :: _ => []
  | c :: rest => c :: upToClose rest

/-- The payload between the first `[` and the following `]` of a raw
dynamic-section value; the raw value itself when it has no bracket. -/
def bracketed (v : String) : String :=
  match afterBracket v.data with
  | some rest => (upToClose rest).asString
  | none => v

/-- Ordered list of the raw values of all entries with tag `k`. -/
def lookupKey (es : List DynamicSectionEntry) (k : String) : List String :=
  match es with
  | [] => []
  | e :: rest =>
    if e.key == k then e.value :: lookupKey rest k else lookupKey rest k

/-- The library's declared SONAME: the first `SONAME` value, bracket
payload extracted. -/
def soname (es : List DynamicSectionEntry) : Option String :=
  (lookupKey es "SONAME").head?.map bracketed

/-- Ordered `NEEDED` values (bracket payloads). -/
def needed (es : List DynamicSectionEntry) : List String :=
  (lookupKey es "NEEDED").map bracketed

/-- Ordered `RUNPATH` values (bracket payloads); the `RUNPATH` tag is
distinct from `RPATH`, whose entries are not returned here. -/
def runpath (es : List DynamicSectionEntry) : List String :=
  (lookupKey es "RUNPATH").map bracketed

/-! ## Symbol lookup by pattern

Modelled from the spec (§3 `symbol_table_info`): a derived index
supporting “functions whose name matches pattern P” lookups.  The
pattern language is the fragment of the regex syntax the call-detection
rules use: literal characters and the any-character metacharacter `.`;
a pattern matches a name when it matches at some position
(`re.search` semantics). -/

/-- One pattern atom: a literal character or the `.` wildcard. -/
inductive Pat
  | lit (c : Char)
  | dot
  deriving Repr, DecidableEq

/-- Compile a pattern string (`.` is the wildcard) into atoms. -/
def patOfString (s : String) : List Pat :=
  s.data.map (fun c => if c == '.' then Pat.dot else Pat.lit c)

/-- Does the pattern match a prefix of `cs`? -/
def patMatchesAt : List Pat → List Char → Bool
  | [], _ => true
  | _ :: _, [] => false
  | .lit c :: ps, d :: ds => c == d && patMatchesAt ps ds
  | .dot :: ps, _ :: ds => patMatchesAt ps ds

/-- Does the pattern match at some position of `cs` (search semantics)? -/
def patSearch (ps : List Pat) : List Char → Bool
  | [] => patMatchesAt ps []
  | c :: ds => patMatchesAt ps (c :: ds) || patSearch ps ds

/-- Modelled from the spec: the lookup returns, in order, the symbols of
function type whose names match the pattern. -/
def get_functions_for_regex (ps : List Pat) (syms : List Symbol) : List Symbol :=
  syms.filter (fun s => s.type == SymbolType.FUNC && patSearch ps s.name.data)

/-! ## Classifier

Modelled from the spec (§4.3): `classify(content_sniff_result)` yields
`Analyze(Object)` for ELF content, `Analyze(Archive)` for `ar`-format
archives, and `Skip` for everything else, including archive-like foreign
formats such as LLVM bitcode archives. -/

/-- The two analyzable kinds. -/
inductive AnalyzeKind
  | Object
  | Archive
  deriving Repr, DecidableEq

/-- The classifier's verdict. -/
inductive ClassifyResult
  | Skip
  | Analyze (kind : AnalyzeKind)
  deriving Repr, DecidableEq

/-- Is the content-sniffed type string ELF? (`file` magic starts with
`ELF`.) -/
def magicIsElf (m : String) : Bool :=
  "ELF".data.isPrefixOf m.data

/-- Is the content-sniffed type string an `ar` archive? (`file` magic
contains `current ar archive`.) -/
def magicIsAr (m : String) : Bool :=
  isSublistOf "current ar archive".data m.data

/-- Modelled from the spec: the classifier. -/
def classify (m : String) : ClassifyResult :=
  if magicIsElf m then .Analyze .Object
  else if magicIsAr m then .Analyze .Archive
  else .Skip

/-! ## Rule engine

Modelled from the spec (§4.2 rule table and §7): the rules the claims
exercise, each a pure function of the `ParseResult`.  A parse failure
short-circuits rule evaluation to the single `readelf-failed` finding
(§7 taxonomy case 1). -/

/-- Does a section name indicate LTO bytecode (GNU LTO section prefix)? -/
def sectionIsLto (s : ElfSection) : Bool :=
  ".gnu.lto".data.isPrefixOf s.name.data

/-- Does a section contribute native code: a non-empty executable-code
section, or a non-empty init/ctor/preinit array? -/
def sectionHasCode (s : ElfSection) : Bool :=
  (s.flags.data.contains 'X' && decide (0 < s.size)) ||
    ((s.name == ".init_array" || s.name == ".ctors" ||
      s.name == ".preinit_array") && decide (0 < s.size))

/-- Does an ELF member contribute native code? -/
def fileHasCode (f : ElfFile) : Bool :=
  f.any sectionHasCode

/-- Does an ELF member contain LTO bytecode sections? -/
def fileIsLto (f : ElfFile) : Bool :=
  f.any sectionIsLto

/-- Modelled from the spec: the single deduplicated `not-an-elf-file`
finding — one message per file however many non-ELF members exist. -/
def notElfRule (pr : ParseResult) : List String :=
  if 0 < pr.nonElfMembers then ["not-an-elf-file"] else []

/-- Modelled from the spec: the informational `lto-bytecode` finding. -/
def ltoBytecodeRule (pr : ParseResult) : List String :=
  if pr.elf_files.any fileIsLto && !pr.is_archive then ["lto-bytecode"] else []

/-- Modelled from the spec: `lto-no-text-in-archive` fires for an
archive with at least one LTO-bytecode member none of whose members
contributes native code. -/
def ltoNoTextRule (pr : ParseResult) : List String :=
  if pr.is_archive && pr.elf_files.any fileIsLto &&
      !pr.elf_files.any fileHasCode then
    ["lto-no-text-in-archive"]
  else []

/-- Modelled from the spec: evaluate the rule battery for one file; a
set `parse_failure` yields the lone `readelf-failed` finding and
suppresses all other rules. -/
def evaluateRules (path : String) (pr : ParseResult) : List String :=
  match pr.parse_failure with
  | some _ => ["readelf-failed " ++ path]
  | none => notElfRule pr ++ ltoBytecodeRule pr ++ ltoNoTextRule pr

/-- Modelled from the spec (§2 data flow): file → Classifier →
(skip | Parser) → ParseResult → Rule Engine → findings.  A skipped file
never reaches the parser and produces no findings. -/
def analyzeFile (magic path : String) (out : ToolOutput) : List String :=
  match classify magic with
  | .Skip => []
  | .Analyze k => evaluateRules path (parse (k == AnalyzeKind.Archive) out)

/-! ## Driver file-list processing (`rpmlint/lint.py`)

Embedded from the source: `Lint._expand_filelist` keeps arguments that
are files with suffix `.rpm`, `.spm` or `.spec`; `Lint.validate_files`
expands the argument list, sorts it (“Sort the files so that the output
is stable”) and validates each file in that order.  The claims concern
lists of input files, so the directory-recursion branch (which only
feeds more files into the same filter) is not exercised. -/

/-- The package suffixes accepted by `_expand_filelist`. -/
def packageSuffixes : List String := [".rpm", ".spm", ".spec"]

/-- `Lint._expand_filelist` restricted to plain files: keep those whose
name ends in an accepted suffix. -/
def expandFilelist (files : List String) : List String :=
  files.filter (fun f => packageSuffixes.any (fun s => s.data.isSuffixOf f.data))

/-- `Lint.validate_files`: the path-sorted processing order. -/
def validateFilesOrder (files : List String) : List String :=
  (expandFilelist files).mergeSort (fun a b => a ≤ b)

/-- The findings of a whole run: each file processed in the sorted
order, its per-file findings (rule-evaluation order within the file)
appended in sequence. -/
def runFindings (perFile : String → List String) (files : List String) :
    List String :=
  (validateFilesOrder files).flatMap perFile

/-! ## Helper lemmas -/

theorem isPrefixOf_refl (l : List Char) : l.isPrefixOf l = true := by
  induction l with
  | nil => rfl
  | cons c cs ih => simp [List.isPrefixOf, ih]

theorem isSublistOf_self (l : List Char) : isSublistOf l l = true := by
  cases l with
  | nil => rfl
  | cons c cs => simp [isSublistOf, isPrefixOf_refl]

/-- C1: For every shared library with a SONAME, the naming-policy rule
derives the expected package-name version suffix by splitting the SONAME
at `.so`, underscoring the trailing `-<version>` of the pre-`.so` part
and the post-`.so` part, joining both with `-` when both are present;
on mismatch with the package name's suffix it emits exactly
`shlib-policy-name-error SONAME: <soname>, expected package suffix: <derived>`.
In particular `libutil.so.1` yields `1` and `libgame2-1.9.so.10.0.0`
yields `1_9-10_0_0`. -/
theorem shlib_policy_name_derivation :
    (∀ (pkgSuffix sn d : String),
        expectedSuffix sn = some d → d ≠ pkgSuffix →
        shlibPolicyCheck pkgSuffix sn =
          ["shlib-policy-name-error SONAME: " ++ sn ++
            ", expected package suffix: " ++ d]) ∧
    (∀ (pkgSuffix sn d : String),
        expectedSuffix sn = some d → d = pkgSuffix →
        shlibPolicyCheck pkgSuffix sn = []) ∧
    expectedSuffix "libutil.so.1" = some "1" ∧
    expectedSuffix "libgame2-1.9.so.10.0.0" = some "1_9-10_0_0" := by
  refine ⟨?_, ?_, by decide, by decide⟩
  · intro pkgSuffix sn d hd hne
    simp [shlibPolicyCheck, hd, shlibPolicyNameErrorMsg, hne]
  · intro pkgSuffix sn d hd he
    simp [shlibPolicyCheck, hd, he]

theorem shlib_policy_name_derivation_witness :
    expectedSuffix "libutil.so.1" = some "1" ∧
    shlibPolicyCheck "libfake" "libutil.so.1" =
      ["shlib-policy-name-error SONAME: libutil.so.1, expected package suffix: 1"] := by
  refine ⟨by decide, ?_⟩
  have h := shlib_policy_name_derivation.1 "libfake" "libutil.so.1" "1"
    (by decide) (by decide)
  simpa using h

/-- C4: `parse` is a total function; a utility failure yields a
`ParseResult` whose `parse_failure` reason contains the tool's message
(containing `No such file` for a missing input), and whenever
`parse_failure` is set every structural collection is empty and no
`ElfFile` is produced. -/
theorem parse_failure_contract :
    (∀ msg : String, ∃ r : String,
        (parse false (.failure msg)).parse_failure = some r ∧
        isSublistOf msg.data r.data = true) ∧
    (∃ r : String,
        (parse false
          (.failure "readelf: Error: 'not-existing-file': No such file")).parse_failure
            = some r ∧
        isSublistOf "No such file".data r.data = true) ∧
    (∀ (a : Bool) (out : ToolOutput) (r : String),
        (parse a out).parse_failure = some r →
        (parse a out).elf_files = [] ∧ (parse a out).headers = [] ∧
        (parse a out).dynamic = [] ∧ (parse a out).symbols = []) := by
  refine ⟨?_, ⟨"readelf: Error: 'not-existing-file': No such file", rfl, by decide⟩, ?_⟩
  · intro msg
    exact ⟨msg, rfl, isSublistOf_self msg.data⟩
  · intro a out r h
    cases out with
    | failure msg => exact ⟨rfl, rfl, rfl, rfl⟩
    | success ls => simp [parse, successResult] at h

theorem parse_failure_contract_witness :
    (parse false (.failure "readelf: Error: 'x': No such file")).parse_failure =
      some "readelf: Error: 'x': No such file" ∧
    (parse false (.failure "readelf: Error: 'x': No such file")).elf_files = [] := by
  refine ⟨rfl, ?_⟩
  exact (parse_failure_contract.2.2 false
    (.failure "readelf: Error: 'x': No such file")
    "readelf: Error: 'x': No such file" rfl).1

/-- C9: for every input, the `ParseResult`'s `is_archive` and
`is_shared_library` flags are never both set. -/
theorem archive_shlib_mutually_exclusive (a : Bool) (out : ToolOutput) :
    ((parse a out).is_archive && (parse a out).is_shared_library) = false := by
  cases out with
  | failure msg => rfl
  | success ls => cases a <;> simp [parse, successResult, failureResult]

/-- C8: a file whose content-sniffed type is not recognised as ELF or
`ar` archive — including bitcode archives — is classified `Skip`, the
parser is never invoked (the analysis pipeline takes the parserless
branch) and zero findings are produced, whatever the tool would have
returned for it. -/
theorem classifier_skip_no_findings (magic path : String) (out : ToolOutput)
    (h : classify magic = ClassifyResult.Skip) :
    analyzeFile magic path out = [] ∧
    classify "LLVM IR bitcode" = ClassifyResult.Skip := by
  refine ⟨?_, by decide⟩
  simp [analyzeFile, h]

theorem classifier_skip_no_findings_witness :
    analyzeFile "LLVM IR bitcode" "/usr/lib64/klee/runtime/libkleeRuntimeFreeStanding.bca"
      (.success [Line.notElf]) = [] :=
  (classifier_skip_no_findings "LLVM IR bitcode"
    "/usr/lib64/klee/runtime/libkleeRuntimeFreeStanding.bca"
    (.success [Line.notElf]) (by decide)).1

/-- C6: the dynamic-section lookup returns, per key, the ordered list of
all its values (repeated tags such as `NEEDED` keep every entry in
order); `soname` is the first `SONAME` payload, `needed` the ordered
`NEEDED` payloads, and `runpath` draws on `RUNPATH` entries only —
`RPATH` entries contribute nothing to it. -/
theorem dynamic_section_accessors :
    (∀ (es : List DynamicSectionEntry) (k : String),
        lookupKey es k =
          (es.filter (fun e => e.key == k)).map (fun e => e.value)) ∧
    (∀ es : List DynamicSectionEntry,
        soname es =
          ((es.filter (fun e => e.key == "SONAME")).map
            (fun e => bracketed e.value)).head?) ∧
    (∀ es : List DynamicSectionEntry,
        needed es =
          (es.filter (fun e => e.key == "NEEDED")).map
            (fun e => bracketed e.value)) ∧
    (∀ es : List DynamicSectionEntry,
        runpath es =
          (es.filter (fun e => e.key == "RUNPATH")).map
            (fun e => bracketed e.value)) ∧
    runpath [⟨"RPATH", "Library rpath: [/tmp]"⟩] = [] ∧
    lookupKey
      [⟨"NEEDED", "Shared library: [libc.so.6]"⟩, ⟨"SYMTAB", "0x4c8"⟩,
        ⟨"SONAME", "Library soname: [libutil.so.1]"⟩,
        ⟨"RUNPATH", "Library runpath: [/tmp/termcap.so.4]"⟩] "SYMTAB" = ["0x4c8"] ∧
    soname
      [⟨"NEEDED", "Shared library: [libc.so.6]"⟩, ⟨"SYMTAB", "0x4c8"⟩,
        ⟨"SONAME", "Library soname: [libutil.so.1]"⟩,
        ⟨"RUNPATH", "Library runpath: [/tmp/termcap.so.4]"⟩] = some "libutil.so.1" ∧
    needed
      [⟨"NEEDED", "Shared library: [libc.so.6]"⟩, ⟨"SYMTAB", "0x4c8"⟩,
        ⟨"SONAME", "Library soname: [libutil.so.1]"⟩,
        ⟨"RUNPATH", "Library runpath: [/tmp/termcap.so.4]"⟩] = ["libc.so.6"] ∧
    runpath
      [⟨"NEEDED", "Shared library: [libc.so.6]"⟩, ⟨"SYMTAB", "0x4c8"⟩,
        ⟨"SONAME", "Library soname: [libutil.so.1]"⟩,
        ⟨"RUNPATH", "Library runpath: [/tmp/termcap.so.4]"⟩] =
      ["/tmp/termcap.so.4"] := by
  have hlk : ∀ (es : List DynamicSectionEntry) (k : String),
      lookupKey es k =
        (es.filter (fun e => e.key == k)).map (fun e => e.value) := by
    intro es k
    induction es with
    | nil => rfl
    | cons e rest ih =>
      by_cases h : e.key == k <;> simp [lookupKey, h, ih]
  refine ⟨hlk, ?_, ?_, ?_, by decide, by decide, by decide, by decide, by decide⟩
  · intro es
    rw [soname, hlk]
    simp only [List.head?_map, Option.map_map]
    rfl
  · intro es
    rw [needed, hlk, List.map_map]
    rfl
  · intro es
    rw [runpath, hlk, List.map_map]
    rfl

/-- C7: lookup of functions matching a pattern returns exactly the
symbols of function type whose names the pattern matches (search
semantics), excluding matching non-function symbols; over
`{main.c: FILE, main: FUNC}` the pattern `mai.` returns exactly the
`main` entry. -/
theorem functions_for_regex_exact :
    (∀ (ps : List Pat) (syms : List Symbol) (s : Symbol),
        s ∈ get_functions_for_regex ps syms ↔
          s ∈ syms ∧ s.type = SymbolType.FUNC ∧
            patSearch ps s.name.data = true) ∧
    get_functions_for_regex (patOfString "mai.")
        [⟨"main.c", .FILE, "LOCAL", "DEFAULT"⟩,
          ⟨"main", .FUNC, "GLOBAL", "DEFAULT"⟩] =
      [⟨"main", .FUNC, "GLOBAL", "DEFAULT"⟩] := by
  refine ⟨?_, by decide⟩
  intro ps syms s
  simp [get_functions_for_regex, List.mem_filter, and_assoc]

/-- C2: for an archive with at least one LTO-bytecode member, the
`lto-no-text-in-archive` finding is emitted exactly when no member
contributes a non-empty executable-code section, init/ctor array or
preinit array; one member with such content suppresses it. -/
theorem lto_no_text_in_archive_iff (pr : ParseResult)
    (harch : pr.is_archive = true)
    (hlto : ∃ f ∈ pr.elf_files, ∃ s ∈ f, sectionIsLto s = true) :
    ltoNoTextRule pr = ["lto-no-text-in-archive"] ↔
      ¬ ∃ f ∈ pr.elf_files, ∃ s ∈ f, sectionHasCode s = true := by
  have hl : pr.elf_files.any fileIsLto = true := by
    rw [List.any_eq_true]
    obtain ⟨f, hf, s, hs, hlt⟩ := hlto
    refine ⟨f, hf, ?_⟩
    rw [fileIsLto, List.any_eq_true]
    exact ⟨s, hs, hlt⟩
  have hcode : pr.elf_files.any fileHasCode = true ↔
      ∃ f ∈ pr.elf_files, ∃ s ∈ f, sectionHasCode s = true := by
    rw [List.any_eq_true]
    constructor
    · rintro ⟨f, hf, hfc⟩
      rw [fileHasCode, List.any_eq_true] at hfc
      exact ⟨f, hf, hfc⟩
    · rintro ⟨f, hf, hfc⟩
      refine ⟨f, hf, ?_⟩
      rw [fileHasCode, List.any_eq_true]
      exact hfc
  rw [← hcode]
  cases hc : pr.elf_files.any fileHasCode <;>
    simp [ltoNoTextRule, harch, hl, hc]

theorem lto_no_text_in_archive_iff_witness :
    ltoNoTextRule
      { is_archive := true, is_shared_library := false, parse_failure := none,
        elf_files := [[⟨".gnu.lto_main", 100, ""⟩]], headers := [],
        dynamic := [], symbols := [], nonElfMembers := 0 } =
      ["lto-no-text-in-archive"] :=
  (lto_no_text_in_archive_iff _ rfl (by decide)).mpr (by decide)

/-- C3: for every analysed file — whatever its magic and however many
non-ELF members its archive has — at most one `not-an-elf-file`
diagnostic is emitted; the finding is deduplicated, never one per
member. -/
theorem not_an_elf_file_deduplicated (magic path : String) (out : ToolOutput) :
    (analyzeFile magic path out).count "not-an-elf-file" ≤ 1 := by
  have key : ∀ pr : ParseResult,
      (evaluateRules path pr).count "not-an-elf-file" ≤ 1 := by
    intro pr
    unfold evaluateRules
    cases hpf : pr.parse_failure with
    | some r =>
      show (["readelf-failed " ++ path]).count "not-an-elf-file" ≤ 1
      simpa using List.count_le_length "not-an-elf-file"
        ["readelf-failed " ++ path]
    | none =>
      show (notElfRule pr ++ ltoBytecodeRule pr ++
        ltoNoTextRule pr).count "not-an-elf-file" ≤ 1
      rw [List.count_append, List.count_append]
      have h1 : (notElfRule pr).count "not-an-elf-file" ≤ 1 := by
        unfold notElfRule
        split <;> decide
      have h2 : (ltoBytecodeRule pr).count "not-an-elf-file" = 0 := by
        unfold ltoBytecodeRule
        split <;> decide
      have h3 : (ltoNoTextRule pr).count "not-an-elf-file" = 0 := by
        unfold ltoNoTextRule
        split <;> decide
      omega
  unfold analyzeFile
  cases hcl : classify magic with
  | Skip => exact Nat.zero_le 1
  | Analyze k => exact key (parse (k == AnalyzeKind.Archive) out)

/-! ## Emission-order collectors

Reference collectors that walk a dump once, gathering each collection in
the utility's emission order; the fold lemmas below show the state
machine produces exactly these. -/

/-- Program headers of a dump in emission order. -/
def collectPhdrs : Mode → List Line → List ProgramHeader
  | _, [] => []
  | _, .banner m :: rest => collectPhdrs m rest
  | _, .fileStart :: rest => collectPhdrs .outside rest
  | m, .phdr h :: rest =>
    if m = .inHeaders then h :: collectPhdrs m rest else collectPhdrs m rest
  | m, _ :: rest => collectPhdrs m rest

/-- Symbols of a dump in emission order. -/
def collectSyms : Mode → List Line → List Symbol
  | _, [] => []
  | _, .banner m :: rest => collectSyms m rest
  | _, .fileStart :: rest => collectSyms .outside rest
  | m, .sym s :: rest =>
    if m = .inSymbols then s :: collectSyms m rest else collectSyms m rest
  | m, _ :: rest => collectSyms m rest

/-- Per-member section lists of a dump, members in order and each
member's sections in emission order. -/
def collectFiles : Mode → List ElfSection → Bool → List Line → List ElfFile
  | _, cur, ne, [] => if cur ≠ [] && !ne then [cur] else []
  | _, cur, ne, .banner m :: rest => collectFiles m cur ne rest
  | _, cur, ne, .fileStart :: rest =>
    (if cur ≠ [] && !ne then [cur] else []) ++
      collectFiles .outside [] false rest
  | m, cur, _, .notElf :: rest => collectFiles m cur true rest
  | m, cur, ne, .sec s :: rest =>
    if m = .inSections then collectFiles m (cur ++ [s]) ne rest
    else collectFiles m cur ne rest
  | m, cur, ne, _ :: rest => collectFiles m cur ne rest

theorem foldl_step_headers (ls : List Line) :
    ∀ st : ParserState,
      (ls.foldl step st).headers = st.headers ++ collectPhdrs st.mode ls := by
  induction ls with
  | nil => intro st; simp [collectPhdrs]
  | cons l rest ih =>
    intro st
    rw [List.foldl_cons]
    cases l <;> rw [ih] <;>
      simp only [step, closeMember, collectPhdrs] <;>
      (try split) <;> simp_all [List.append_assoc]

theorem foldl_step_symbols (ls : List Line) :
    ∀ st : ParserState,
      (ls.foldl step st).symbols = st.symbols ++ collectSyms st.mode ls := by
  induction ls with
  | nil => intro st; simp [collectSyms]
  | cons l rest ih =>
    intro st
    rw [List.foldl_cons]
    cases l <;> rw [ih] <;>
      simp only [step, closeMember, collectSyms] <;>
      (try split) <;> simp_all [List.append_assoc]

theorem foldl_step_elfFiles (ls : List Line) :
    ∀ st : ParserState,
      (closeMember (ls.foldl step st)).elfFiles =
        st.elfFiles ++
          collectFiles st.mode st.currentSections st.currentNonElf ls := by
  induction ls with
  | nil =>
    intro st
    simp only [List.foldl_nil, closeMember, collectFiles]
    split <;> simp_all
  | cons l rest ih =>
    intro st
    rw [List.foldl_cons]
    cases l <;> rw [ih] <;>
      simp only [step, closeMember, collectFiles] <;>
      (try split) <;> simp_all [List.append_assoc]

/-- The program-header dump of a typical executable: `PHDR` first with
flags `R`, a `GNU_STACK` header with flags `RWE` at index 9, 11 headers
in all. -/
def phdrExampleDump : List Line :=
  [.banner .inHeaders,
    .phdr ⟨"PHDR", "R"⟩, .phdr ⟨"INTERP", "R"⟩, .phdr ⟨"LOAD", "R"⟩,
    .phdr ⟨"LOAD", "RE"⟩, .phdr ⟨"LOAD", "R"⟩, .phdr ⟨"LOAD", "RW"⟩,
    .phdr ⟨"DYNAMIC", "RW"⟩, .phdr ⟨"NOTE", "R"⟩,
    .phdr ⟨"GNU_EH_FRAME", "R"⟩, .phdr ⟨"GNU_STACK", "RWE"⟩,
    .phdr ⟨"GNU_RELRO", "R"⟩]

/-- A one-member archive dump: member boundary, then its sections
(`.text` of size 21 first), then its symbol table. -/
def archiveExampleDump : List Line :=
  [.fileStart, .banner .inSections,
    .sec ⟨".text", 21, "AX"⟩, .sec ⟨".data", 0, "WA"⟩,
    .banner .inSymbols,
    .sym ⟨"main.c", .FILE, "LOCAL", "DEFAULT"⟩,
    .sym ⟨"main", .FUNC, "GLOBAL", "DEFAULT"⟩]

/-- C5: for every successful parse, the sections, symbols, and program
headers of the `ParseResult` are exactly those of the dump in emission
order (positional identity), so index-based access reproduces the input
order — e.g. header 0 is `PHDR`/`R` and header 9 `GNU_STACK`/`RWE` in
an 11-header dump, and the one member of the example archive starts
with `.text` of size 21. -/
theorem parse_preserves_emission_order :
    (∀ (a : Bool) (ls : List Line),
        (parse a (.success ls)).headers = collectPhdrs Mode.outside ls ∧
        (parse a (.success ls)).symbols = collectSyms Mode.outside ls ∧
        (parse a (.success ls)).elf_files =
          collectFiles Mode.outside [] false ls) ∧
    (parse false (.success phdrExampleDump)).headers.length = 11 ∧
    ((parse false (.success phdrExampleDump)).headers)[0]? =
      some ⟨"PHDR", "R"⟩ ∧
    ((parse false (.success phdrExampleDump)).headers)[9]? =
      some ⟨"GNU_STACK", "RWE"⟩ ∧
    (parse true (.success archiveExampleDump)).elf_files =
      [[⟨".text", 21, "AX"⟩, ⟨".data", 0, "WA"⟩]] ∧
    (parse true (.success archiveExampleDump)).symbols =
      [⟨"main.c", .FILE, "LOCAL", "DEFAULT"⟩,
        ⟨"main", .FUNC, "GLOBAL", "DEFAULT"⟩] := by
  refine ⟨?_, by decide, by decide, by decide, by decide, by decide⟩
  intro a ls
  refine ⟨?_, ?_, ?_⟩
  · have h := foldl_step_headers ls initState
    simpa [parse, successResult, runLines, closeMember, initState] using h
  · have h := foldl_step_symbols ls initState
    simpa [parse, successResult, runLines, closeMember, initState] using h
  · have h := foldl_step_elfFiles ls initState
    simpa [parse, successResult, runLines, initState] using h

/-! ## Driver determinism (`rpmlint/lint.py`) -/

/-- C10: `validate_files` sorts its expanded file list before
processing (`lint.py`: “Sort the files so that the output is stable”),
so the processing order is sorted by path and two runs over any two
permutations of the same file list produce the same findings in the
same order. -/
theorem driver_order_deterministic :
    (∀ l : List String, (validateFilesOrder l).Sorted (· ≤ ·)) ∧
    (∀ (perFile : String → List String) (l l' : List String),
        l.Perm l' → runFindings perFile l = runFindings perFile l') := by
  constructor
  · intro l
    exact List.sorted_mergeSort' (expandFilelist l)
  · intro perFile l l' h
    unfold runFindings validateFilesOrder
    have hperm : List.Perm ((expandFilelist l).mergeSort (fun a b => a ≤ b))
        ((expandFilelist l').mergeSort (fun a b => a ≤ b)) := by
      refine (List.mergeSort_perm _ _).trans (List.Perm.trans ?_
        (List.mergeSort_perm _ _).symm)
      exact h.filter _
    rw [List.eq_of_perm_of_sorted hperm
      (List.sorted_mergeSort' (expandFilelist l))
      (List.sorted_mergeSort' (expandFilelist l'))]

theorem driver_order_deterministic_witness :
    runFindings (fun p => [p]) ["b.rpm", "a.rpm", "c.txt"] =
      runFindings (fun p => [p]) ["a.rpm", "c.txt", "b.rpm"] :=
  driver_order_deterministic.2 (fun p => [p]) ["b.rpm", "a.rpm", "c.txt"]
    ["a.rpm", "c.txt", "b.rpm"] (by decide)

end Rpmlint
